import Mathlib

/-!
# Screenshot capture: a shallow embedding of `screenshot_windows.go`

The Go source drives the Windows GDI through foreign calls.  Every foreign call
is represented by the value it hands back (an oracle field of `OS`, `Monitor`
or `Desktop`), and the order in which the calls are issued is recorded in an
event list, so that statements about early exits and deferred clean-up can be
phrased and proved.
-/

set_option autoImplicit false
set_option linter.unusedVariables false
set_option maxRecDepth 8192

/-- One `uint8`. -/
abbrev Byte := Fin 256

/-! ## Machine integers -/

/-- Conversion to `int32`: two's complement wrap-around. -/
def int32 (v : Int) : Int := (v + 2 ^ 31) % 2 ^ 32 - 2 ^ 31

/-- Conversion to `int64`: two's complement wrap-around. -/
def int64 (v : Int) : Int := (v + 2 ^ 63) % 2 ^ 64 - 2 ^ 63

/-- Conversion to `uintptr` (64 bit). -/
def uintptr (v : Int) : Nat := (v % 2 ^ 64).toNat

/-! ## The parts of Go's `image` package that the source uses -/

namespace image

/-- Go `image.Point`. -/
structure Point where
  X : Int
  Y : Int
deriving DecidableEq, Repr

/-- Go `image.Rectangle`. -/
structure Rectangle where
  Min : Point
  Max : Point
deriving DecidableEq, Repr

/-- Go `image.Rect`: the corners are swapped where needed so that the result is
well formed. -/
def Rect (x0 y0 x1 y1 : Int) : Rectangle :=
  let (x0, x1) := if x0 > x1 then (x1, x0) else (x0, x1)
  let (y0, y1) := if y0 > y1 then (y1, y0) else (y0, y1)
  ⟨⟨x0, y0⟩, ⟨x1, y1⟩⟩

/-- Go `Rectangle.Dx`. -/
def Rectangle.Dx (r : Rectangle) : Int := r.Max.X - r.Min.X

/-- Go `Rectangle.Dy`. -/
def Rectangle.Dy (r : Rectangle) : Int := r.Max.Y - r.Min.Y

/-- Go `image.RGBA`: the pixel bytes, the row stride and the bounds. -/
structure RGBA where
  Pix : List Byte
  Stride : Int
  Rect : Rectangle
deriving DecidableEq, Repr

/-- Go `image.NewRGBA`: a zeroed buffer of `4 * Dx * Dy` bytes. -/
def NewRGBA (r : Rectangle) : RGBA :=
  { Pix := List.replicate (4 * r.Dx * r.Dy).toNat 0, Stride := 4 * r.Dx, Rect := r }

end image

/-! ## Outcomes of a call -/

/-- A Go run-time panic. -/
inductive Panic
  | invalidMemoryAddress
  | indexOutOfRange
  | explicit (msg : String)
deriving DecidableEq, Repr

/-- How a call of `Capture` or `CaptureWindow` ends: it returns its pair
`(*image.RGBA, error)`, each component possibly nil, or it panics. -/
inductive Outcome
  | returned (img : Option image.RGBA) (err : Option String)
  | panicked (p : Panic)
deriving DecidableEq, Repr

/-! ## The locked transfer block and the conversion loop -/

/-- The memory behind `memptr`: `size` bytes (the size given to `GlobalAlloc`),
holding what `GetDIBits` stored there. -/
structure Block where
  size : Nat
  bytes : Nat → Byte

/-- The read `*(*uint8)(unsafe.Pointer(src))` at offset `off` from `memptr`.
`memptr` is `none` when `GlobalLock` gave the null pointer; a read through the
null pointer, or past the end of the block, is a fault. -/
def load (memptr : Option Block) (off : Nat) : Except Panic Byte :=
  match memptr with
  | none => .error .invalidMemoryAddress
  | some b => if off < b.size then .ok (b.bytes off) else .error .invalidMemoryAddress

/-- The store `img.Pix[i] = v`, bounds checked as in Go. -/
def store (pix : List Byte) (i : Nat) (v : Byte) : Except Panic (List Byte) :=
  if i < pix.length then .ok (pix.set i v) else .error .indexOutOfRange

/-- State of the conversion loop: the two cursors `i` and `src` (the latter as
an offset from `memptr`), the pixel slice, and the record of the offsets read
and of the indices stored so far. -/
structure ConvState where
  i : Nat
  src : Nat
  Pix : List Byte
  reads : List Nat
  writes : List Nat
deriving DecidableEq, Repr

/-- Body of the inner loop (lines 116-124). -/
def pixelStep (memptr : Option Block) (s : ConvState) : Except Panic ConvState :=
  match load memptr s.src with
  | .error e => .error e
  | .ok v0 =>
  match load memptr (s.src + 1) with
  | .error e => .error e
  | .ok v1 =>
  match load memptr (s.src + 2) with
  | .error e => .error e
  | .ok v2 =>
  match store s.Pix s.i v2 with
  | .error e => .error e
  | .ok p0 =>
  match store p0 (s.i + 1) v1 with
  | .error e => .error e
  | .ok p1 =>
  match store p1 (s.i + 2) v0 with
  | .error e => .error e
  | .ok p2 =>
  match store p2 (s.i + 3) 255 with
  | .error e => .error e
  | .ok p3 =>
    .ok { i := s.i + 4, src := s.src + 4, Pix := p3,
          reads := s.reads ++ [s.src, s.src + 1, s.src + 2],
          writes := s.writes ++ [s.i, s.i + 1, s.i + 2, s.i + 3] }

/-- The loop `for x := 0; x < width; x++`, by the number of iterations left. -/
def rowLoop (memptr : Option Block) : Nat → ConvState → Except Panic ConvState
  | 0, s => .ok s
  | n + 1, s =>
    match pixelStep memptr s with
    | .error e => .error e
    | .ok s1 => rowLoop memptr n s1

/-- The loop `for y := 0; y < height; y++`, by the number of iterations left. -/
def imageLoop (memptr : Option Block) (width : Int) : Nat → ConvState → Except Panic ConvState
  | 0, s => .ok s
  | n + 1, s =>
    match rowLoop memptr width.toNat s with
    | .error e => .error e
    | .ok s1 => imageLoop memptr width n s1

/-- Lines 112-126: both cursors start at zero. -/
def convert (memptr : Option Block) (width height : Int) (pix : List Byte) :
    Except Panic ConvState :=
  imageLoop memptr width height.toNat
    { i := 0, src := 0, Pix := pix, reads := [], writes := [] }

/-- Line 92: `uintptr(((int64(width)*int64(header.BiBitCount) + 31) / 32) * 4 * int64(height))`
with `header.BiBitCount = 32`; `/` truncates towards zero. -/
def bitmapDataSize (width height : Int) : Nat :=
  uintptr (int64 (int64 (Int.tdiv (int64 (int64 (int64 width * 32) + 31)) 32 * 4) * int64 height))

/-! ## `Capture` -/

/-- The OS calls issued by `Capture` and `CaptureWindow`.  A call whose result
the source inspects carries `ok`, true when the result was non-zero. -/
inductive Event
  | GetDC (ok : Bool)
  | CreateCompatibleDC (ok : Bool)
  | CreateCompatibleBitmap (ok : Bool)
  | GlobalAlloc (ok : Bool)
  | GlobalLock (ok : Bool)
  | SelectObject (ok : Bool)
  | BitBlt (ok : Bool)
  | GetDIBits (ok : Bool)
  | RestoreObject
  | GlobalUnlock
  | GlobalFree
  | DeleteObject
  | DeleteDC
  | ReleaseDC
  | FindWindow (ok : Bool)
  | SetProcessDPIAware
  | DwmGetWindowAttribute (ok : Bool)
deriving DecidableEq, Repr

/-- What the operating system answers to the calls of one `Capture`: for each
call whether its result is non-zero, and the bytes `GetDIBits` leaves in the
transfer block. -/
structure OS where
  GetDC : Bool
  CreateCompatibleDC : Bool
  CreateCompatibleBitmap : Bool
  GlobalAlloc : Bool
  GlobalLock : Bool
  SelectObject : Bool
  BitBlt : Bool
  GetDIBits : Bool
  bits : Nat → Byte

/-- One execution of `Capture` or `CaptureWindow`: the OS calls in the order
they were issued (deferred calls included), the block offsets read and the
`Pix` indices stored by a conversion loop that ran to its end, and the way the
call ended. -/
structure Run where
  events : List Event
  reads : List Nat
  writes : List Nat
  result : Outcome

/-- A `return nil, errors.New(msg)`: the deferred calls run, latest first. -/
def fail (calls defers : List Event) (msg : String) : Run :=
  { events := calls ++ defers, reads := [], writes := [],
    result := .returned none (some msg) }

/-- Go `Capture` (lines 54-129).  `CreateImage` is the allocator `util.CreateImage`.
The lists `c1 .. c8` are the calls issued so far; `d1 .. d6` are the stacks of
deferred calls, latest first, which run on every exit, a panic included.
`hmem` is non-zero when `GlobalAlloc` succeeded, and `memptr` is non-null when
in addition `GlobalLock` succeeded; the source tests neither.  `x` and `y` only
reach `BitBlt`, and `getDesktopWindow`, whose result is not tested and which
acquires nothing, is not recorded. -/
def Capture (CreateImage : image.Rectangle → Except String image.RGBA) (os : OS)
    (x y width height : Int) : Run :=
  let rect := image.Rect 0 0 width height
  match CreateImage rect with
  | .error err => { events := [], reads := [], writes := [], result := .returned none (some err) }
  | .ok img =>
    let c1 := [Event.GetDC os.GetDC]
    if os.GetDC = false then fail c1 [] "GetDC failed" else
    let d1 := [Event.ReleaseDC]
    let c2 := c1 ++ [Event.CreateCompatibleDC os.CreateCompatibleDC]
    if os.CreateCompatibleDC = false then fail c2 d1 "CreateCompatibleDC failed" else
    let d2 := Event.DeleteDC :: d1
    let c3 := c2 ++ [Event.CreateCompatibleBitmap os.CreateCompatibleBitmap]
    if os.CreateCompatibleBitmap = false then fail c3 d2 "CreateCompatibleBitmap failed" else
    let d3 := Event.DeleteObject :: d2
    let hmem := os.GlobalAlloc
    let d4 := Event.GlobalFree :: d3
    let locked := hmem && os.GlobalLock
    let memptr : Option Block :=
      if locked then some { size := bitmapDataSize width height, bytes := os.bits } else none
    let d5 := Event.GlobalUnlock :: d4
    let c6 := c3 ++ [Event.GlobalAlloc hmem, Event.GlobalLock locked,
      Event.SelectObject os.SelectObject]
    if os.SelectObject = false then fail c6 d5 "SelectObject failed" else
    let d6 := Event.RestoreObject :: d5
    let c7 := c6 ++ [Event.BitBlt os.BitBlt]
    if os.BitBlt = false then fail c7 d6 "BitBlt failed" else
    let c8 := c7 ++ [Event.GetDIBits os.GetDIBits]
    if os.GetDIBits = false then fail c8 d6 "GetDIBits failed" else
    match convert memptr width height img.Pix with
    | .error p => { events := c8 ++ d6, reads := [], writes := [], result := .panicked p }
    | .ok s =>
      { events := c8 ++ d6, reads := s.reads, writes := s.writes,
        result := .returned (some { img with Pix := s.Pix }) none }

/-- Modelled from the spec: `util.CreateImage` of package `internal/util`, which
is not among the sources.  The spec has it as the allocator
`CreateImage(rect) -> PixelBuffer` that delivers the buffer of
width × height × 4 bytes for the rectangle it receives, and has zero-area
rectangles legal, giving empty captures; so it fails only when the allocation
itself fails, which `allocOk` tells.  The clause of step 1 on width/height ≤ 0
speaks of the arguments of `Capture`, which the allocator never sees, and is no
part of this definition. -/
def util.CreateImage (allocOk : Bool) (rect : image.Rectangle) : Except String image.RGBA :=
  if allocOk = false then .error "Cannot create image.RGBA"
  else .ok (image.NewRGBA rect)

/-- An operating system on which every call succeeds. -/
def OS.allOk (bits : Nat → Byte) : OS :=
  { GetDC := true, CreateCompatibleDC := true, CreateCompatibleBitmap := true,
    GlobalAlloc := true, GlobalLock := true, SelectObject := true, BitBlt := true,
    GetDIBits := true, bits := bits }

/-! ## `CaptureWindow` -/

namespace win

/-- The Windows `RECT`: four `int32` fields. -/
structure RECT where
  Left : Int
  Top : Int
  Right : Int
  Bottom : Int
deriving DecidableEq, Repr

/-- The Windows `POINT`: two `int32` fields. -/
structure POINT where
  X : Int
  Y : Int
deriving DecidableEq, Repr

end win

/-- What the window manager answers to `CaptureWindow`: the handle `FindWindow`
gives for a title (zero when no top-level window carries it), the extended
frame bounds `DwmGetWindowAttribute` stores for a handle (`none` when it
reports an error), and the answers to the `Capture` that follows. -/
structure Desktop where
  FindWindow : String → Nat
  DwmGetWindowAttribute : Nat → Option win.RECT
  os : OS

/-- Go `syscall.UTF16PtrFromString`: `EINVAL` when the string holds a NUL.  The
pointer it yields is represented by the string itself. -/
def UTF16PtrFromString (s : String) : Except String String :=
  if s.toList.contains (Char.ofNat 0) then .error "invalid argument" else .ok s

/-- Go `CaptureWindow` (lines 30-52). -/
def CaptureWindow (CreateImage : image.Rectangle → Except String image.RGBA) (d : Desktop)
    (windowName : String) : Run :=
  match UTF16PtrFromString windowName with
  | .error err =>
    { events := [], reads := [], writes := [], result := .panicked (.explicit err) }
  | .ok lpWindowName =>
    let hwndWindow := d.FindWindow lpWindowName
    if hwndWindow = 0 then fail [Event.FindWindow false] [] "invalid hwnd" else
    match d.DwmGetWindowAttribute hwndWindow with
    | none =>
      fail [Event.FindWindow true, Event.SetProcessDPIAware, Event.DwmGetWindowAttribute false] []
        "DwmGetWindowAttribute failed"
    | some bounds =>
      let width := int32 (bounds.Right - bounds.Left)
      let height := int32 (bounds.Bottom - bounds.Top)
      let r := Capture CreateImage d.os bounds.Left bounds.Top width height
      { r with events := [Event.FindWindow true, Event.SetProcessDPIAware,
          Event.DwmGetWindowAttribute true] ++ r.events }

/-! ## Display enumeration -/

/-- The fields of `_DEVMODE` that the source reads: `DmPosition` (two `int32`)
and `DmPelsWidth`, `DmPelsHeight` (two `uint32`). -/
structure _DEVMODE where
  DmPosition : win.POINT
  DmPelsWidth : Nat
  DmPelsHeight : Nat
deriving DecidableEq, Repr

/-- One monitor as the OS presents it: the rectangle `EnumDisplayMonitors`
passes to the callback, whether `GetMonitorInfoW` succeeds for its handle, and
what `EnumDisplaySettingsW` stores for its device name (`none` when that call
returns zero). -/
structure Monitor where
  lprcMonitor : win.RECT
  GetMonitorInfo : Bool
  EnumDisplaySettings : Option _DEVMODE
deriving DecidableEq, Repr

/-- Go `getMonitorRealSize` (lines 257-279); the two sums are `int32` sums. -/
def getMonitorRealSize (hMonitor : Monitor) : Option win.RECT :=
  if hMonitor.GetMonitorInfo = false then none else
  match hMonitor.EnumDisplaySettings with
  | none => none
  | some devMode =>
    some { Left := devMode.DmPosition.X,
           Right := int32 (devMode.DmPosition.X + int32 devMode.DmPelsWidth),
           Top := devMode.DmPosition.Y,
           Bottom := int32 (devMode.DmPosition.Y + int32 devMode.DmPelsHeight) }

/-- The struct `getMonitorBoundsContext`, and next to it the monitors for which
the callback has invoked `getMonitorRealSize`, in order. -/
structure getMonitorBoundsContext where
  Index : Int
  Rect : win.RECT
  Count : Int
  resolved : List Monitor
deriving DecidableEq, Repr

/-- Go `getMonitorBoundsCallback` (lines 209-224): the new context, and whether the
value returned is non-zero (the enumeration goes on). -/
def getMonitorBoundsCallback (hMonitor : Monitor) (ctx : getMonitorBoundsContext) :
    getMonitorBoundsContext × Bool :=
  if ctx.Count ≠ ctx.Index then ({ ctx with Count := ctx.Count + 1 }, true)
  else
    match getMonitorRealSize hMonitor with
    | some realSize =>
      ({ ctx with Rect := realSize, resolved := ctx.resolved ++ [hMonitor] }, false)
    | none =>
      ({ ctx with Rect := hMonitor.lprcMonitor, resolved := ctx.resolved ++ [hMonitor] }, false)

/-- The OS routine `EnumDisplayMonitors`: the callback is invoked on the
monitors in turn, until it returns zero or the monitors are exhausted. -/
def enumDisplayMonitors {σ : Type} (lpfnEnum : Monitor → σ → σ × Bool) :
    List Monitor → σ → σ
  | [], dwData => dwData
  | m :: ms, dwData =>
    match lpfnEnum m dwData with
    | (dwData1, true) => enumDisplayMonitors lpfnEnum ms dwData1
    | (dwData1, false) => dwData1

/-- The context after the enumeration of line 141. -/
def GetDisplayBoundsCtx (monitors : List Monitor) (displayIndex : Int) :
    getMonitorBoundsContext :=
  enumDisplayMonitors getMonitorBoundsCallback monitors
    { Index := displayIndex, Rect := ⟨0, 0, 0, 0⟩, Count := 0, resolved := [] }

/-- Go `GetDisplayBounds` (lines 137-145) over the attached `monitors`. -/
def GetDisplayBounds (monitors : List Monitor) (displayIndex : Int) : image.Rectangle :=
  let ctx := GetDisplayBoundsCtx monitors displayIndex
  image.Rect ctx.Rect.Left ctx.Rect.Top ctx.Rect.Right ctx.Rect.Bottom

/-- Go `countupMonitorCallback` (lines 196-201). -/
def countupMonitorCallback (hMonitor : Monitor) (count : Int) : Int × Bool :=
  (count + 1, true)

/-- Go `NumActiveDisplays` (lines 131-135). -/
def NumActiveDisplays (monitors : List Monitor) : Int :=
  enumDisplayMonitors countupMonitorCallback monitors 0

/-! ## Vocabulary of the statements, and sample inputs -/

/-- What `n` completed iterations of the loop body have done between the states
`s` and `t`, reading from the block `b`. -/
structure Converted (b : Block) (s t : ConvState) (n : Nat) : Prop where
  i_eq : t.i = s.i + 4 * n
  src_eq : t.src = s.src + 4 * n
  length_eq : t.Pix.length = s.Pix.length
  writes_eq : t.writes = s.writes ++ List.range' s.i (4 * n)
  reads_eq : t.reads = s.reads ++
    (List.range n).flatMap (fun p => [s.src + 4 * p, s.src + 4 * p + 1, s.src + 4 * p + 2])
  fits_pix : n = 0 ∨ s.i + 4 * n ≤ s.Pix.length
  fits_block : n = 0 ∨ s.src + 4 * n ≤ b.size + 1
  below : ∀ j, j < s.i → t.Pix[j]? = s.Pix[j]?
  pixel : ∀ p, p < n →
    t.Pix[s.i + 4 * p]? = some (b.bytes (s.src + 4 * p + 2)) ∧
    t.Pix[s.i + 4 * p + 1]? = some (b.bytes (s.src + 4 * p + 1)) ∧
    t.Pix[s.i + 4 * p + 2]? = some (b.bytes (s.src + 4 * p)) ∧
    t.Pix[s.i + 4 * p + 3]? = some 255

/-- The pointer `memptr` that `Capture` passes on to `GetDIBits` and reads from. -/
def memptrOf (os : OS) (width height : Int) : Option Block :=
  if (os.GlobalAlloc && os.GlobalLock) then
    some { size := bitmapDataSize width height, bytes := os.bits }
  else none

/-- An allocator that always delivers the image `image.NewRGBA` makes. -/
def allocNewRGBA (rect : image.Rectangle) : Except String image.RGBA :=
  .ok (image.NewRGBA rect)

/-- Sample transfer-block contents: offset `n` holds `n + 10`. -/
def sampleBits (n : Nat) : Byte := Fin.ofNat (n + 10)

/-- The OS resources `Capture` takes hold of. -/
inductive Resource
  | desktopDC
  | memoryDC
  | bitmap
  | globalBlock
  | blockLock
  | previousSelection
deriving DecidableEq, Repr

/-- The resource a call has acquired: the call is an acquiring one and its
result was non-zero. -/
def Event.acquired : Event → Option Resource
  | .GetDC true => some .desktopDC
  | .CreateCompatibleDC true => some .memoryDC
  | .CreateCompatibleBitmap true => some .bitmap
  | .GlobalAlloc true => some .globalBlock
  | .GlobalLock true => some .blockLock
  | .SelectObject true => some .previousSelection
  | _ => none

/-- The resource a call releases or restores. -/
def Event.released : Event → Option Resource
  | .ReleaseDC => some .desktopDC
  | .DeleteDC => some .memoryDC
  | .DeleteObject => some .bitmap
  | .GlobalFree => some .globalBlock
  | .GlobalUnlock => some .blockLock
  | .RestoreObject => some .previousSelection
  | _ => none

/-- The resources held after a sequence of calls, latest acquired first. -/
def heldAfter (events : List Event) : List Resource :=
  events.foldl
    (fun held e =>
      match e.acquired, e.released with
      | some r, _ => r :: held
      | none, some r => held.erase r
      | none, none => held)
    []

/-- The context the callback leaves when the counter equals the index. -/
def hitContext (m : Monitor) (ctx : getMonitorBoundsContext) : getMonitorBoundsContext :=
  { ctx with
    Count := ctx.Index
    Rect := (getMonitorRealSize m).getD m.lprcMonitor
    resolved := ctx.resolved ++ [m] }

/-- Sample monitors: a scaled one whose display mode is known, one for which
`GetMonitorInfoW` fails, and one whose settings cannot be read. -/
def sampleMonitors : List Monitor :=
  [ { lprcMonitor := ⟨0, 0, 1536, 864⟩, GetMonitorInfo := true,
      EnumDisplaySettings := some ⟨⟨0, 0⟩, 1920, 1080⟩ },
    { lprcMonitor := ⟨1536, 0, 3456, 1080⟩, GetMonitorInfo := false,
      EnumDisplaySettings := some ⟨⟨1920, 0⟩, 2560, 1440⟩ },
    { lprcMonitor := ⟨-1280, 0, 0, 1024⟩, GetMonitorInfo := true,
      EnumDisplaySettings := none } ]

/-- A desktop without any top-level window. -/
def emptyDesktop : Desktop :=
  { FindWindow := fun _ => 0, DwmGetWindowAttribute := fun _ => none, os := OS.allOk sampleBits }

/-! ## Lemmas on the conversion loop, on `Capture` and on the enumeration -/

theorem store_eq_ok {pix : List Byte} {i : Nat} {v : Byte} {p : List Byte}
    (h : store pix i v = .ok p) : i < pix.length ∧ p = pix.set i v := by
  unfold store at h
  split at h
  · rename_i hlt
    cases h
    exact ⟨hlt, rfl⟩
  · cases h

theorem load_eq_ok {m : Option Block} {off : Nat} {v : Byte}
    (h : load m off = .ok v) : ∃ b, m = some b ∧ off < b.size ∧ v = b.bytes off := by
  unfold load at h
  cases m with
  | none => cases h
  | some b =>
    simp only at h
    split at h
    · rename_i hlt
      cases h
      exact ⟨b, rfl, hlt, rfl⟩
    · cases h

theorem pixelStep_eq_ok {m : Option Block} {s t : ConvState} (h : pixelStep m s = .ok t) :
    ∃ b, m = some b ∧ s.src + 2 < b.size ∧ s.i + 3 < s.Pix.length ∧
      t = { i := s.i + 4, src := s.src + 4,
            Pix := (((s.Pix.set s.i (b.bytes (s.src + 2))).set (s.i + 1)
              (b.bytes (s.src + 1))).set (s.i + 2) (b.bytes s.src)).set (s.i + 3) 255,
            reads := s.reads ++ [s.src, s.src + 1, s.src + 2],
            writes := s.writes ++ [s.i, s.i + 1, s.i + 2, s.i + 3] } := by
  unfold pixelStep at h
  split at h
  · cases h
  rename_i v0 h0
  split at h
  · cases h
  rename_i v1 h1
  split at h
  · cases h
  rename_i v2 h2
  split at h
  · cases h
  rename_i p0 hp0
  split at h
  · cases h
  rename_i p1 hp1
  split at h
  · cases h
  rename_i p2 hp2
  split at h
  · cases h
  rename_i p3 hp3
  obtain ⟨b, hb, _, rfl⟩ := load_eq_ok h0
  obtain ⟨b1, hb1, _, rfl⟩ := load_eq_ok h1
  obtain ⟨b2, hb2, hlt, rfl⟩ := load_eq_ok h2
  obtain ⟨_, rfl⟩ := store_eq_ok hp0
  obtain ⟨_, rfl⟩ := store_eq_ok hp1
  obtain ⟨_, rfl⟩ := store_eq_ok hp2
  obtain ⟨h3, rfl⟩ := store_eq_ok hp3
  subst hb
  cases hb1
  cases hb2
  simp only [List.length_set] at h3
  cases h
  exact ⟨b, rfl, hlt, h3, rfl⟩

theorem pixelStep_of_bounds (b : Block) (s : ConvState) (hsrc : s.src + 2 < b.size)
    (hi : s.i + 3 < s.Pix.length) :
    pixelStep (some b) s = .ok
      { i := s.i + 4, src := s.src + 4,
        Pix := (((s.Pix.set s.i (b.bytes (s.src + 2))).set (s.i + 1)
          (b.bytes (s.src + 1))).set (s.i + 2) (b.bytes s.src)).set (s.i + 3) 255,
        reads := s.reads ++ [s.src, s.src + 1, s.src + 2],
        writes := s.writes ++ [s.i, s.i + 1, s.i + 2, s.i + 3] } := by
  have h0 : s.src < b.size := by omega
  have h1 : s.src + 1 < b.size := by omega
  have i0 : s.i < s.Pix.length := by omega
  have i1 : s.i + 1 < s.Pix.length := by omega
  have i2 : s.i + 2 < s.Pix.length := by omega
  simp [pixelStep, load, store, h0, h1, hsrc, i0, i1, i2, hi]

theorem rowLoop_none_eq_ok {n : Nat} {s t : ConvState} (h : rowLoop none n s = .ok t) :
    n = 0 := by
  cases n with
  | zero => rfl
  | succ k =>
    unfold rowLoop at h
    split at h
    · cases h
    · rename_i s1 hs1
      obtain ⟨b, hb, _⟩ := pixelStep_eq_ok hs1
      cases hb

theorem rowLoop_eq_ok (b : Block) :
    ∀ (n : Nat) (s t : ConvState), rowLoop (some b) n s = .ok t → Converted b s t n := by
  intro n
  induction n with
  | zero =>
    intro s t h
    unfold rowLoop at h
    cases h
    exact
      { i_eq := by simp, src_eq := by simp, length_eq := rfl, writes_eq := by simp,
        reads_eq := by simp, fits_pix := Or.inl rfl, fits_block := Or.inl rfl,
        below := fun _ _ => rfl, pixel := fun p hp => absurd hp (Nat.not_lt_zero p) }
  | succ k ih =>
    intro s t h
    unfold rowLoop at h
    split at h
    · cases h
    rename_i s1 hs1
    obtain ⟨b1, hb1, hsrc, hi, hs1eq⟩ := pixelStep_eq_ok hs1
    cases hb1
    have c := ih s1 t h
    have e_i : s1.i = s.i + 4 := by rw [hs1eq]
    have e_src : s1.src = s.src + 4 := by rw [hs1eq]
    have e_len : s1.Pix.length = s.Pix.length := by rw [hs1eq]; simp
    have e_w : s1.writes = s.writes ++ [s.i, s.i + 1, s.i + 2, s.i + 3] := by rw [hs1eq]
    have e_r : s1.reads = s.reads ++ [s.src, s.src + 1, s.src + 2] := by rw [hs1eq]
    have e_pix : s1.Pix = (((s.Pix.set s.i (b.bytes (s.src + 2))).set (s.i + 1)
        (b.bytes (s.src + 1))).set (s.i + 2) (b.bytes s.src)).set (s.i + 3) 255 := by
      rw [hs1eq]
    have keep : ∀ j, j < s.i + 4 → t.Pix[j]? = s1.Pix[j]? := by
      intro j hj
      exact c.below j (by omega)
    refine
      { i_eq := ?_, src_eq := ?_, length_eq := ?_, writes_eq := ?_, reads_eq := ?_,
        fits_pix := ?_, fits_block := ?_, below := ?_, pixel := ?_ }
    · rw [c.i_eq, e_i]; omega
    · rw [c.src_eq, e_src]; omega
    · rw [c.length_eq, e_len]
    · rw [c.writes_eq, e_w, e_i]
      have : 4 * (k + 1) = 4 * k + 1 + 1 + 1 + 1 := by omega
      rw [this]
      simp [List.range'_succ, Nat.add_assoc]
    · rw [c.reads_eq, e_r, e_src, List.range_succ_eq_map, List.flatMap_cons, List.flatMap_map]
      have hf : ∀ p, [s.src + 4 + 4 * p, s.src + 4 + 4 * p + 1, s.src + 4 + 4 * p + 2] =
          [s.src + 4 * Nat.succ p, s.src + 4 * Nat.succ p + 1, s.src + 4 * Nat.succ p + 2] := by
        intro p
        have : s.src + 4 + 4 * p = s.src + 4 * Nat.succ p := by omega
        rw [this]
      simp only [hf]
      simp
    · right
      rcases c.fits_pix with h0 | h1
      · subst h0; omega
      · rw [e_i, e_len] at h1; omega
    · right
      rcases c.fits_block with h0 | h1
      · subst h0; omega
      · rw [e_src] at h1; omega
    · intro j hj
      rw [keep j (by omega), e_pix]
      simp only [List.getElem?_set]
      have h0 : ¬ s.i + 3 = j := by omega
      have h1 : ¬ s.i + 2 = j := by omega
      have h2 : ¬ s.i + 1 = j := by omega
      have h3 : ¬ s.i = j := by omega
      simp [h0, h1, h2, h3]
    · intro p hp
      cases p with
      | zero =>
        have l0 : s.i < s.Pix.length := by omega
        have l1 : s.i + 1 < s.Pix.length := by omega
        have l2 : s.i + 2 < s.Pix.length := by omega
        refine ⟨?_, ?_, ?_, ?_⟩
        · rw [keep _ (by omega), e_pix]
          simp [List.getElem?_set, l0]
        · rw [keep _ (by omega), e_pix]
          simp [List.getElem?_set, l1]
        · rw [keep _ (by omega), e_pix]
          simp [List.getElem?_set, l2]
        · rw [keep _ (by omega), e_pix]
          simp [List.getElem?_set, hi]
      | succ q =>
        have hq := c.pixel q (by omega)
        rw [e_i, e_src] at hq
        have a1 : s.i + 4 + 4 * q = s.i + 4 * (q + 1) := by omega
        have a2 : s.src + 4 + 4 * q = s.src + 4 * (q + 1) := by omega
        rw [a1, a2] at hq
        exact hq

theorem rowLoop_add (m : Option Block) :
    ∀ (a c : Nat) (s : ConvState),
      rowLoop m (a + c) s =
        match rowLoop m a s with
        | .error e => .error e
        | .ok s1 => rowLoop m c s1 := by
  intro a
  induction a with
  | zero =>
    intro c s
    simp [rowLoop]
  | succ k ih =>
    intro c s
    have : k + 1 + c = (k + c) + 1 := by omega
    rw [this]
    simp only [rowLoop]
    cases pixelStep m s with
    | error e => rfl
    | ok s1 => exact ih c s1

/-- The two nested loops perform `width * height` iterations of the body. -/
theorem imageLoop_eq_rowLoop (m : Option Block) (width : Int) :
    ∀ (n : Nat) (s : ConvState),
      imageLoop m width n s = rowLoop m (width.toNat * n) s := by
  intro n
  induction n with
  | zero =>
    intro s
    simp [imageLoop, rowLoop]
  | succ k ih =>
    intro s
    have : width.toNat * (k + 1) = width.toNat + width.toNat * k := by ring
    rw [this, rowLoop_add]
    simp only [imageLoop]
    cases rowLoop m width.toNat s with
    | error e => rfl
    | ok s1 => exact ih s1

/-- With room in the block and in the pixel slice the loop runs to its end. -/
theorem rowLoop_of_bounds (b : Block) :
    ∀ (n : Nat) (s : ConvState), s.src + 4 * n ≤ b.size → s.i + 4 * n ≤ s.Pix.length →
      ∃ t, rowLoop (some b) n s = .ok t := by
  intro n
  induction n with
  | zero =>
    intro s _ _
    exact ⟨s, rfl⟩
  | succ k ih =>
    intro s hsrc hi
    unfold rowLoop
    rw [pixelStep_of_bounds b s (by omega) (by omega)]
    apply ih
    · simp only; omega
    · simp only [List.length_set]; omega

/-- A `Capture` that returns an image has passed every check and has run the
conversion loop to its end over the image the allocator delivered. -/
theorem Capture_returned_image
    {CreateImage : image.Rectangle → Except String image.RGBA} {os : OS}
    {x y width height : Int} {img : image.RGBA} {err : Option String}
    (hok : (Capture CreateImage os x y width height).result = .returned (some img) err) :
    ∃ img0 s, CreateImage (image.Rect 0 0 width height) = .ok img0 ∧
      convert (memptrOf os width height) width height img0.Pix = .ok s ∧
      img = { img0 with Pix := s.Pix } ∧ err = none ∧
      (Capture CreateImage os x y width height).writes = s.writes ∧
      (Capture CreateImage os x y width height).reads = s.reads := by
  unfold Capture at hok ⊢
  cases hc : CreateImage (image.Rect 0 0 width height) with
  | error e => simp [hc] at hok
  | ok img0 =>
    simp only [hc] at hok ⊢
    by_cases h1 : os.GetDC = false
    · simp [h1, fail] at hok
    by_cases h2 : os.CreateCompatibleDC = false
    · simp [h1, h2, fail] at hok
    by_cases h3 : os.CreateCompatibleBitmap = false
    · simp [h1, h2, h3, fail] at hok
    by_cases h4 : os.SelectObject = false
    · simp [h1, h2, h3, h4, fail] at hok
    by_cases h5 : os.BitBlt = false
    · simp [h1, h2, h3, h4, h5, fail] at hok
    by_cases h6 : os.GetDIBits = false
    · simp [h1, h2, h3, h4, h5, h6, fail] at hok
    simp only [h1, h2, h3, h4, h5, h6, if_false] at hok ⊢
    change (match convert (memptrOf os width height) width height img0.Pix with
      | .error p => _
      | .ok s => _ : Run).result = _ at hok
    change ∃ img1 s, Except.ok img0 = Except.ok img1 ∧ _ ∧ _ ∧ _ ∧
      (match convert (memptrOf os width height) width height img0.Pix with
      | .error p => _
      | .ok s => _ : Run).writes = _ ∧
      (match convert (memptrOf os width height) width height img0.Pix with
      | .error p => _
      | .ok s => _ : Run).reads = _
    cases hcv : convert (memptrOf os width height) width height img0.Pix with
    | error p => simp [hcv] at hok
    | ok s =>
      simp only [hcv] at hok ⊢
      simp only [Outcome.returned.injEq, Option.some.injEq] at hok
      exact ⟨img0, s, rfl, hcv, hok.1.symm, hok.2.symm, rfl, rfl⟩

/-- A conversion that ran to its end over a non-empty image read from a real
block and did `width * height` iterations of the body from cursor zero. -/
theorem convert_eq_ok {m : Option Block} {width height : Int} {pix : List Byte}
    {s : ConvState} (hw : 0 < width) (hh : 0 < height)
    (h : convert m width height pix = .ok s) :
    ∃ b, m = some b ∧
      Converted b { i := 0, src := 0, Pix := pix, reads := [], writes := [] } s
        (width.toNat * height.toNat) := by
  unfold convert at h
  rw [imageLoop_eq_rowLoop] at h
  have hpos : 0 < width.toNat * height.toNat := by
    apply Nat.mul_pos <;> omega
  cases m with
  | none =>
    have := rowLoop_none_eq_ok h
    omega
  | some b => exact ⟨b, rfl, rowLoop_eq_ok b _ _ _ h⟩

theorem memptrOf_eq_some {os : OS} {width height : Int} {b : Block}
    (h : memptrOf os width height = some b) :
    b.size = bitmapDataSize width height ∧ b.bytes = os.bits := by
  unfold memptrOf at h
  split at h
  · cases h
    exact ⟨rfl, rfl⟩
  · cases h

theorem toNat_mul_toNat {width height : Int} (hw : 0 < width) (hh : 0 < height) :
    ((width.toNat * height.toNat : Nat) : Int) = width * height := by
  rw [Nat.cast_mul, Int.toNat_of_nonneg hw.le, Int.toNat_of_nonneg hh.le]

theorem Rect_of_le {x0 y0 x1 y1 : Int} (hx : x0 ≤ x1) (hy : y0 ≤ y1) :
    image.Rect x0 y0 x1 y1 = ⟨⟨x0, y0⟩, ⟨x1, y1⟩⟩ := by
  unfold image.Rect
  have h1 : ¬ x0 > x1 := by omega
  have h2 : ¬ y0 > y1 := by omega
  simp [h1, h2]

theorem count_range (n j : Nat) : (List.range n).count j = if j < n then 1 else 0 := by
  split
  · rename_i h
    exact List.count_eq_one_of_mem (List.nodup_range n) (List.mem_range.mpr h)
  · rename_i h
    exact List.count_eq_zero_of_not_mem (fun hm => h (List.mem_range.mp hm))

theorem int64_of_range {v : Int} (hlo : -(2 ^ 63) ≤ v) (hhi : v < 2 ^ 63) : int64 v = v := by
  unfold int64
  omega

theorem uintptr_of_range {v : Int} (hlo : 0 ≤ v) (hhi : v < 2 ^ 64) :
    (uintptr v : Int) = v := by
  unfold uintptr
  omega

theorem bitmapDataSize_eq {width height : Int} (hw : 0 < width) (hh : 0 < height)
    (hrow : width * 32 + 31 < 2 ^ 63) (hsize : 4 * width * height < 2 ^ 63) :
    (bitmapDataSize width height : Int) = Int.tdiv (width * 32 + 31) 32 * 4 * height ∧
    (bitmapDataSize width height : Int) = 4 * width * height := by
  have hpos : 0 < width * height := mul_pos hw hh
  have hh63 : height < 2 ^ 63 := by nlinarith
  have e1 : int64 width = width := int64_of_range (by omega) (by omega)
  have e2 : int64 (width * 32) = width * 32 := int64_of_range (by omega) (by omega)
  have e3 : int64 (width * 32 + 31) = width * 32 + 31 := int64_of_range (by omega) (by omega)
  have e4 : Int.tdiv (width * 32 + 31) 32 = width := by
    rw [Int.tdiv_eq_ediv (by omega) (by norm_num)]
    omega
  have e5 : int64 (width * 4) = width * 4 := int64_of_range (by omega) (by omega)
  have e6 : int64 height = height := int64_of_range (by omega) (by omega)
  have e7 : int64 (width * 4 * height) = width * 4 * height :=
    int64_of_range (by nlinarith) (by nlinarith)
  have e8 : (uintptr (width * 4 * height) : Int) = width * 4 * height :=
    uintptr_of_range (by nlinarith) (by nlinarith)
  unfold bitmapDataSize
  rw [e1, e2, e3, e4, e5, e6, e7, e8]
  constructor <;> ring

theorem bitmapDataSize_eq_nat {width height : Int} (hw : 0 < width) (hh : 0 < height)
    (hrow : width * 32 + 31 < 2 ^ 63) (hsize : 4 * width * height < 2 ^ 63) :
    bitmapDataSize width height = 4 * (width.toNat * height.toNat) := by
  obtain ⟨_, f2⟩ := bitmapDataSize_eq hw hh hrow hsize
  have hn := toNat_mul_toNat hw hh
  have : ((bitmapDataSize width height : Nat) : Int) =
      ((4 * (width.toNat * height.toNat) : Nat) : Int) := by
    rw [f2]
    push_cast at hn ⊢
    rw [hn]
    ring
  exact_mod_cast this

theorem NewRGBA_length {width height : Int} (hw : 0 < width) (hh : 0 < height) :
    (image.NewRGBA (image.Rect 0 0 width height)).Pix.length =
      4 * (width.toNat * height.toNat) := by
  simp only [image.NewRGBA, List.length_replicate, Rect_of_le hw.le hh.le,
    image.Rectangle.Dx, image.Rectangle.Dy, sub_zero]
  have e : 4 * width * height = ((4 * (width.toNat * height.toNat) : Nat) : Int) := by
    push_cast
    rw [Int.toNat_of_nonneg hw.le, Int.toNat_of_nonneg hh.le]
    ring
  rw [e]
  exact Int.toNat_natCast _

/-- While the counter cannot reach the index, every monitor is skipped and
only the counter moves. -/
theorem enum_skip :
    ∀ (ms : List Monitor) (ctx : getMonitorBoundsContext),
      (∀ k : Nat, k < ms.length → ctx.Count + k ≠ ctx.Index) →
      enumDisplayMonitors getMonitorBoundsCallback ms ctx =
        { ctx with Count := ctx.Count + ms.length } := by
  intro ms
  induction ms with
  | nil =>
    intro ctx _
    simp [enumDisplayMonitors]
  | cons m rest ih =>
    intro ctx hne
    have h0 : ctx.Count ≠ ctx.Index := by
      have := hne 0 (by simp)
      simpa using this
    have hcb : getMonitorBoundsCallback m ctx = ({ ctx with Count := ctx.Count + 1 }, true) := by
      simp [getMonitorBoundsCallback, h0]
    simp only [enumDisplayMonitors, hcb]
    rw [ih]
    · simp only [List.length_cons, Nat.cast_add, Nat.cast_one]
      congr 1
      ring
    · intro k hk
      have := hne (k + 1) (by simp; omega)
      simp only
      push_cast at this
      omega

/-- When the counter reaches the index at position `k`, the enumeration ends
there with that monitor resolved; the monitors behind it play no part. -/
theorem enum_hit :
    ∀ (ms : List Monitor) (ctx : getMonitorBoundsContext) (k : Nat) (hk : k < ms.length),
      ctx.Count + k = ctx.Index →
      enumDisplayMonitors getMonitorBoundsCallback ms ctx = hitContext (ms.get ⟨k, hk⟩) ctx := by
  intro ms
  induction ms with
  | nil =>
    intro ctx k hk
    simp at hk
  | cons m rest ih =>
    intro ctx k hk heq
    cases k with
    | zero =>
      have h0 : ctx.Count = ctx.Index := by simpa using heq
      cases hr : getMonitorRealSize m with
      | none =>
        simp [enumDisplayMonitors, getMonitorBoundsCallback, h0, hr, hitContext]
      | some r =>
        simp [enumDisplayMonitors, getMonitorBoundsCallback, h0, hr, hitContext]
    | succ j =>
      have h0 : ctx.Count ≠ ctx.Index := by
        push_cast at heq
        omega
      have hcb : getMonitorBoundsCallback m ctx =
          ({ ctx with Count := ctx.Count + 1 }, true) := by
        simp [getMonitorBoundsCallback, h0]
      simp only [enumDisplayMonitors, hcb]
      have hj : j < rest.length := by simpa using hk
      rw [ih { ctx with Count := ctx.Count + 1 } j hj (by push_cast at heq; simp only; omega)]
      simp [hitContext]

theorem GetDisplayBoundsCtx_hit (ms : List Monitor) (i : Nat) (h : i < ms.length) :
    GetDisplayBoundsCtx ms i =
      { Index := i, Rect := (getMonitorRealSize ms[i]).getD ms[i].lprcMonitor, Count := i,
        resolved := [ms[i]] } := by
  unfold GetDisplayBoundsCtx
  rw [enum_hit ms _ i h (by simp)]
  simp [hitContext]

/-- With every OS call succeeding and the allocator delivering the image of
`Rect(0, 0, width, height)`, a capture of positive extent within the int64
range does return an image and no error. -/
theorem Capture_returns_image
    (CreateImage : image.Rectangle → Except String image.RGBA) (bits : Nat → Byte)
    (x y width height : Int) (hw : 0 < width) (hh : 0 < height)
    (hrow : width * 32 + 31 < 2 ^ 63) (hsize : 4 * width * height < 2 ^ 63)
    (halloc : CreateImage (image.Rect 0 0 width height) =
      .ok (image.NewRGBA (image.Rect 0 0 width height))) :
    ∃ img, (Capture CreateImage (OS.allOk bits) x y width height).result =
      .returned (some img) none := by
  have hsz := bitmapDataSize_eq_nat hw hh hrow hsize
  have hlen := NewRGBA_length hw hh
  obtain ⟨t, ht⟩ := rowLoop_of_bounds ⟨bitmapDataSize width height, bits⟩
    (width.toNat * height.toNat)
    { i := 0, src := 0, Pix := (image.NewRGBA (image.Rect 0 0 width height)).Pix,
      reads := [], writes := [] }
    (by simp only; omega) (by simp only; omega)
  have hcv : convert (some ⟨bitmapDataSize width height, bits⟩) width height
      (image.NewRGBA (image.Rect 0 0 width height)).Pix = .ok t := by
    unfold convert
    rw [imageLoop_eq_rowLoop]
    exact ht
  refine ⟨{ image.NewRGBA (image.Rect 0 0 width height) with Pix := t.Pix }, ?_⟩
  simp [Capture, halloc, OS.allOk, hcv]


/-- With a width or a height that is not positive the loops do not iterate. -/
theorem convert_of_nonpos (m : Option Block) (width height : Int) (pix : List Byte)
    (h0 : width ≤ 0 ∨ height ≤ 0) :
    convert m width height pix =
      .ok { i := 0, src := 0, Pix := pix, reads := [], writes := [] } := by
  unfold convert
  rw [imageLoop_eq_rowLoop]
  have hz : width.toNat * height.toNat = 0 := by
    rcases h0 with h | h
    · rw [Int.toNat_of_nonpos h, Nat.zero_mul]
    · rw [Int.toNat_of_nonpos h, Nat.mul_zero]
  rw [hz]
  rfl

/-! ## The claims -/

/-- C1: for width > 0 and height > 0, a `Capture` that returns an image has
written, for every pixel index `p < width * height` (row-major, top row first),
`Pix[4p] = src[4p+2]`, `Pix[4p+1] = src[4p+1]`, `Pix[4p+2] = src[4p]` and
`Pix[4p+3] = 255`, where `src` is the retrieved block; so alpha is 255 whatever
the fourth source byte is, and a block of one solid colour `(r, g, b)` gives an
image whose every pixel is `(r, g, b, 255)`. -/
theorem C1_capture_bgra_to_rgba
    (CreateImage : image.Rectangle → Except String image.RGBA) (os : OS)
    (x y width height : Int) (img : image.RGBA) (hw : 0 < width) (hh : 0 < height)
    (hok : (Capture CreateImage os x y width height).result = .returned (some img) none) :
    (∀ p : Nat, (p : Int) < width * height →
      img.Pix[4 * p]? = some (os.bits (4 * p + 2)) ∧
      img.Pix[4 * p + 1]? = some (os.bits (4 * p + 1)) ∧
      img.Pix[4 * p + 2]? = some (os.bits (4 * p)) ∧
      img.Pix[4 * p + 3]? = some 255) ∧
    (∀ r g b : Byte,
      (∀ p : Nat, (p : Int) < width * height →
        os.bits (4 * p) = b ∧ os.bits (4 * p + 1) = g ∧ os.bits (4 * p + 2) = r) →
      ∀ p : Nat, (p : Int) < width * height →
        img.Pix[4 * p]? = some r ∧ img.Pix[4 * p + 1]? = some g ∧
        img.Pix[4 * p + 2]? = some b ∧ img.Pix[4 * p + 3]? = some 255) := by
  obtain ⟨img0, s, _, hcv, himg, _, _, _⟩ := Capture_returned_image hok
  obtain ⟨b, hb, c⟩ := convert_eq_ok hw hh hcv
  obtain ⟨_, hbytes⟩ := memptrOf_eq_some hb
  have main : ∀ p : Nat, (p : Int) < width * height →
      img.Pix[4 * p]? = some (os.bits (4 * p + 2)) ∧
      img.Pix[4 * p + 1]? = some (os.bits (4 * p + 1)) ∧
      img.Pix[4 * p + 2]? = some (os.bits (4 * p)) ∧
      img.Pix[4 * p + 3]? = some 255 := by
    intro p hp
    have hp1 : p < width.toNat * height.toNat := by
      have := toNat_mul_toNat hw hh
      omega
    have := c.pixel p hp1
    simp only [Nat.zero_add, hbytes] at this
    rw [himg]
    exact this
  refine ⟨main, ?_⟩
  intro r g b0 hsolid p hp
  obtain ⟨h0, h1, h2, h3⟩ := main p hp
  obtain ⟨e0, e1, e2⟩ := hsolid p hp
  rw [e2] at h0
  rw [e1] at h1
  rw [e0] at h2
  exact ⟨h0, h1, h2, h3⟩

/-- C1, on a 2 × 1 capture of the sample block. -/
theorem C1_capture_bgra_to_rgba_witness :
    (Capture allocNewRGBA (OS.allOk sampleBits) 0 0 2 1).result =
        .returned (some ⟨[12, 11, 10, 255, 16, 15, 14, 255], 8, ⟨⟨0, 0⟩, ⟨2, 1⟩⟩⟩) none ∧
      ([12, 11, 10, 255, 16, 15, 14, 255] : List Byte)[4 * 1 + 3]? = some 255 :=
  ⟨by decide,
   ((C1_capture_bgra_to_rgba allocNewRGBA (OS.allOk sampleBits) 0 0 2 1
      ⟨[12, 11, 10, 255, 16, 15, 14, 255], 8, ⟨⟨0, 0⟩, ⟨2, 1⟩⟩⟩
      (by decide) (by decide) (by decide)).1 1 (by decide)).2.2.2⟩

/-- C2: for width > 0 and height > 0 and an allocator that delivers the RGBA
image of `Rect(0, 0, width, height)`, a `Capture` that returns an image returns
a buffer of exactly `width * height * 4` bytes, and the stores of the conversion
loop go to the indices `0, 1, ..., width * height * 4 - 1`, each index exactly
once: none is left out and none falls outside the buffer. -/
theorem C2_capture_buffer_length_and_writes
    (CreateImage : image.Rectangle → Except String image.RGBA) (os : OS)
    (x y width height : Int) (img : image.RGBA) (hw : 0 < width) (hh : 0 < height)
    (halloc : CreateImage (image.Rect 0 0 width height) =
      .ok (image.NewRGBA (image.Rect 0 0 width height)))
    (hok : (Capture CreateImage os x y width height).result = .returned (some img) none) :
    (img.Pix.length : Int) = width * height * 4 ∧
    (Capture CreateImage os x y width height).writes = List.range img.Pix.length ∧
    (∀ j : Nat, (Capture CreateImage os x y width height).writes.count j =
      if j < img.Pix.length then 1 else 0) := by
  obtain ⟨img0, s, hc, hcv, himg, _, hwr, _⟩ := Capture_returned_image hok
  obtain ⟨b, _, c⟩ := convert_eq_ok hw hh hcv
  rw [halloc] at hc
  cases hc
  have hlen : img.Pix.length = 4 * (width.toNat * height.toNat) := by
    rw [himg]
    simp only
    rw [c.length_eq]
    exact NewRGBA_length hw hh
  have hwrites : (Capture CreateImage os x y width height).writes =
      List.range img.Pix.length := by
    rw [hwr, c.writes_eq, hlen, List.range_eq_range']
    simp
  refine ⟨?_, hwrites, ?_⟩
  · rw [hlen]
    have := toNat_mul_toNat hw hh
    push_cast at this ⊢
    rw [this]
    ring
  · intro j
    rw [hwrites]
    exact count_range _ j

/-- C2, on a 2 × 1 capture of the sample block. -/
theorem C2_capture_buffer_length_and_writes_witness :
    (Capture allocNewRGBA (OS.allOk sampleBits) 0 0 2 1).result =
        .returned (some ⟨[12, 11, 10, 255, 16, 15, 14, 255], 8, ⟨⟨0, 0⟩, ⟨2, 1⟩⟩⟩) none ∧
      (Capture allocNewRGBA (OS.allOk sampleBits) 0 0 2 1).writes = List.range 8 :=
  ⟨by decide,
   (C2_capture_buffer_length_and_writes allocNewRGBA (OS.allOk sampleBits) 0 0 2 1
      ⟨[12, 11, 10, 255, 16, 15, 14, 255], 8, ⟨⟨0, 0⟩, ⟨2, 1⟩⟩⟩
      (by decide) (by decide) rfl (by decide)).2.1⟩

/-- C3: for an index `i` within the enumeration, `GetDisplayBounds(i)` resolves
the `i`-th monitor and no other.  When both queries succeed the result is the
rectangle `(X, Y, X + PelsWidth, Y + PelsHeight)` of the current display mode
(the sums are those of the source, taken in `int32`; within the `int32` range
they are the plain sums); when either query fails it is the rectangle reported
by the enumeration, unmodified.  The enumeration stops at entry `i`: whatever
monitors follow, the result is the same. -/
theorem C3_display_bounds_in_range (ms : List Monitor) (i : Nat) (h : i < ms.length) :
    (GetDisplayBoundsCtx ms i).resolved = [ms[i]] ∧
    (∀ devMode : _DEVMODE, ms[i].GetMonitorInfo = true →
      ms[i].EnumDisplaySettings = some devMode →
      GetDisplayBounds ms i =
        image.Rect devMode.DmPosition.X devMode.DmPosition.Y
          (int32 (devMode.DmPosition.X + int32 devMode.DmPelsWidth))
          (int32 (devMode.DmPosition.Y + int32 devMode.DmPelsHeight)) ∧
      (-(2 ^ 31) ≤ devMode.DmPosition.X → -(2 ^ 31) ≤ devMode.DmPosition.Y →
        devMode.DmPosition.X + devMode.DmPelsWidth < 2 ^ 31 →
        devMode.DmPosition.Y + devMode.DmPelsHeight < 2 ^ 31 →
        GetDisplayBounds ms i =
          ⟨⟨devMode.DmPosition.X, devMode.DmPosition.Y⟩,
           ⟨devMode.DmPosition.X + devMode.DmPelsWidth,
            devMode.DmPosition.Y + devMode.DmPelsHeight⟩⟩)) ∧
    ((ms[i].GetMonitorInfo = false ∨ ms[i].EnumDisplaySettings = none) →
      GetDisplayBounds ms i =
        image.Rect ms[i].lprcMonitor.Left ms[i].lprcMonitor.Top
          ms[i].lprcMonitor.Right ms[i].lprcMonitor.Bottom ∧
      (ms[i].lprcMonitor.Left ≤ ms[i].lprcMonitor.Right →
        ms[i].lprcMonitor.Top ≤ ms[i].lprcMonitor.Bottom →
        GetDisplayBounds ms i =
          ⟨⟨ms[i].lprcMonitor.Left, ms[i].lprcMonitor.Top⟩,
           ⟨ms[i].lprcMonitor.Right, ms[i].lprcMonitor.Bottom⟩⟩)) ∧
    (∀ later : List Monitor,
      GetDisplayBounds (ms.take (i + 1) ++ later) i = GetDisplayBounds ms i) := by
  have hctx := GetDisplayBoundsCtx_hit ms i h
  refine ⟨by rw [hctx], ?_, ?_, ?_⟩
  · intro devMode hinfo hset
    have hreal : getMonitorRealSize ms[i] =
        some { Left := devMode.DmPosition.X,
               Right := int32 (devMode.DmPosition.X + int32 devMode.DmPelsWidth),
               Top := devMode.DmPosition.Y,
               Bottom := int32 (devMode.DmPosition.Y + int32 devMode.DmPelsHeight) } := by
      simp [getMonitorRealSize, hinfo, hset]
    have hres : GetDisplayBounds ms i =
        image.Rect devMode.DmPosition.X devMode.DmPosition.Y
          (int32 (devMode.DmPosition.X + int32 devMode.DmPelsWidth))
          (int32 (devMode.DmPosition.Y + int32 devMode.DmPelsHeight)) := by
      unfold GetDisplayBounds
      simp only [hctx, hreal, Option.getD_some]
    refine ⟨hres, ?_⟩
    intro hx hy hxw hyh
    rw [hres]
    have ew : int32 (devMode.DmPosition.X + int32 devMode.DmPelsWidth) =
        devMode.DmPosition.X + devMode.DmPelsWidth := by
      unfold int32
      omega
    have eh : int32 (devMode.DmPosition.Y + int32 devMode.DmPelsHeight) =
        devMode.DmPosition.Y + devMode.DmPelsHeight := by
      unfold int32
      omega
    rw [ew, eh]
    exact Rect_of_le (by omega) (by omega)
  · intro hfail
    have hreal : getMonitorRealSize ms[i] = none := by
      rcases hfail with hf | hf
      · simp [getMonitorRealSize, hf]
      · simp [getMonitorRealSize, hf]
    have hres : GetDisplayBounds ms i =
        image.Rect ms[i].lprcMonitor.Left ms[i].lprcMonitor.Top
          ms[i].lprcMonitor.Right ms[i].lprcMonitor.Bottom := by
      unfold GetDisplayBounds
      simp only [hctx, hreal, Option.getD_none]
    refine ⟨hres, ?_⟩
    intro hlr htb
    rw [hres]
    exact Rect_of_le hlr htb
  · intro later
    have hlen : i < (ms.take (i + 1) ++ later).length := by
      simp only [List.length_append, List.length_take]
      omega
    have hget : (ms.take (i + 1) ++ later)[i] = ms[i] := by
      rw [List.getElem_append_left (by simp only [List.length_take]; omega)]
      simp
    unfold GetDisplayBounds
    rw [GetDisplayBoundsCtx_hit _ i hlen, hctx, hget]

/-- C3, on the sample monitors: index 0 resolves to the 1920 × 1080 mode rather
than to the scaled rectangle of the enumeration. -/
theorem C3_display_bounds_in_range_witness :
    (GetDisplayBoundsCtx sampleMonitors (0 : Nat)).resolved = [sampleMonitors[0]] ∧
    GetDisplayBounds sampleMonitors (0 : Nat) = ⟨⟨0, 0⟩, ⟨1920, 1080⟩⟩ :=
  ⟨(C3_display_bounds_in_range sampleMonitors 0 (by decide)).1,
   ((C3_display_bounds_in_range sampleMonitors 0 (by decide)).2.1 ⟨⟨0, 0⟩, 1920, 1080⟩
      rfl rfl).2 (by decide) (by decide) (by decide) (by decide)⟩

/-- C4: for an index outside the enumeration (negative, or at least the number
of monitors), `GetDisplayBounds` returns the zero rectangle and
`getMonitorRealSize` is invoked for no monitor. -/
theorem C4_display_bounds_out_of_range (ms : List Monitor) (displayIndex : Int)
    (h : displayIndex < 0 ∨ (ms.length : Int) ≤ displayIndex) :
    GetDisplayBounds ms displayIndex = ⟨⟨0, 0⟩, ⟨0, 0⟩⟩ ∧
    (GetDisplayBoundsCtx ms displayIndex).resolved = [] := by
  have hctx : GetDisplayBoundsCtx ms displayIndex =
      { Index := displayIndex, Rect := ⟨0, 0, 0, 0⟩, Count := 0 + ms.length, resolved := [] } := by
    unfold GetDisplayBoundsCtx
    rw [enum_skip]
    intro k hk
    simp only
    omega
  refine ⟨?_, by rw [hctx]⟩
  unfold GetDisplayBounds
  rw [hctx]
  rfl

/-- C4, on the sample monitors, for the indices 3 and -1. -/
theorem C4_display_bounds_out_of_range_witness :
    (GetDisplayBounds sampleMonitors 3 = ⟨⟨0, 0⟩, ⟨0, 0⟩⟩ ∧
      (GetDisplayBoundsCtx sampleMonitors 3).resolved = []) ∧
    (GetDisplayBounds sampleMonitors (-1) = ⟨⟨0, 0⟩, ⟨0, 0⟩⟩ ∧
      (GetDisplayBoundsCtx sampleMonitors (-1)).resolved = []) :=
  ⟨C4_display_bounds_out_of_range sampleMonitors 3 (Or.inr (by decide)),
   C4_display_bounds_out_of_range sampleMonitors (-1) (Or.inl (by decide))⟩

/-- C5: when the window lookup is made for the title and yields the null
handle, `CaptureWindow` returns the nil image together with a non-nil error
(`invalid hwnd`); the lookup is the only OS call made, so no capture takes
place. -/
theorem C5_capture_window_not_found
    (CreateImage : image.Rectangle → Except String image.RGBA) (d : Desktop)
    (windowName lpWindowName : String)
    (hptr : UTF16PtrFromString windowName = .ok lpWindowName)
    (hfind : d.FindWindow lpWindowName = 0) :
    (CaptureWindow CreateImage d windowName).result = .returned none (some "invalid hwnd") ∧
    (CaptureWindow CreateImage d windowName).events = [Event.FindWindow false] ∧
    (CaptureWindow CreateImage d windowName).reads = [] ∧
    (CaptureWindow CreateImage d windowName).writes = [] := by
  simp [CaptureWindow, hptr, hfind, fail]

/-- C5, for the title `NonexistentWindowTitle12345` on a desktop without
windows. -/
theorem C5_capture_window_not_found_witness :
    (CaptureWindow allocNewRGBA emptyDesktop "NonexistentWindowTitle12345").result =
      .returned none (some "invalid hwnd") :=
  (C5_capture_window_not_found allocNewRGBA emptyDesktop "NonexistentWindowTitle12345"
    "NonexistentWindowTitle12345" rfl rfl).1

/-- C6 at a failing input: `GlobalLock` gives the null pointer, every other call
succeeds, and a 1 × 1 capture is asked for.  `Capture` goes on to the conversion
loop and reads through the null pointer: it ends in a panic, which is neither
(nil image, error) nor (converted image, nil error). -/
theorem C6_GlobalLock_failure_panics :
    (Capture allocNewRGBA { OS.allOk sampleBits with GlobalLock := false } 0 0 1 1).result =
      .panicked .invalidMemoryAddress ∧
    (∀ err, (Capture allocNewRGBA { OS.allOk sampleBits with GlobalLock := false }
      0 0 1 1).result ≠ .returned none (some err)) ∧
    (∀ img, (Capture allocNewRGBA { OS.allOk sampleBits with GlobalLock := false }
      0 0 1 1).result ≠ .returned (some img) none) := by
  have h : (Capture allocNewRGBA { OS.allOk sampleBits with GlobalLock := false }
      0 0 1 1).result = .panicked .invalidMemoryAddress := by decide
  refine ⟨h, ?_, ?_⟩
  · intro err
    rw [h]
    exact fun hne => Outcome.noConfusion hne
  · intro img
    rw [h]
    exact fun hne => Outcome.noConfusion hne

/-- C7 at a failing input: `GlobalAlloc` fails, every other call succeeds, and
a 1 × 1 capture is asked for.  No error is returned at the failing call:
`GlobalLock`, `SelectObject`, `BitBlt` and `GetDIBits` are still issued, and the
call ends in a panic on the first read through the null pointer. -/
theorem C7_GlobalAlloc_failure_not_surfaced :
    (Capture allocNewRGBA { OS.allOk sampleBits with GlobalAlloc := false } 0 0 1 1).events =
      [Event.GetDC true, Event.CreateCompatibleDC true, Event.CreateCompatibleBitmap true,
       Event.GlobalAlloc false, Event.GlobalLock false, Event.SelectObject true,
       Event.BitBlt true, Event.GetDIBits true,
       Event.RestoreObject, Event.GlobalUnlock, Event.GlobalFree, Event.DeleteObject,
       Event.DeleteDC, Event.ReleaseDC] ∧
    (Capture allocNewRGBA { OS.allOk sampleBits with GlobalAlloc := false } 0 0 1 1).result =
      .panicked .invalidMemoryAddress := by
  decide

/-- C8: on every exit of `Capture` (a return with an image, a return with an
error, or a panic), the resources acquired so far are released or restored
exactly once each, in the reverse of the order in which they were acquired, and
nothing is held any more when `Capture` is left. -/
theorem C8_capture_releases_in_reverse_order
    (CreateImage : image.Rectangle → Except String image.RGBA) (os : OS)
    (x y width height : Int) :
    ((Capture CreateImage os x y width height).events.filterMap Event.released).filter
        (fun r => r ∈ (Capture CreateImage os x y width height).events.filterMap Event.acquired) =
      ((Capture CreateImage os x y width height).events.filterMap Event.acquired).reverse ∧
    (∀ r ∈ (Capture CreateImage os x y width height).events.filterMap Event.acquired,
      ((Capture CreateImage os x y width height).events.filterMap Event.released).count r = 1) ∧
    heldAfter (Capture CreateImage os x y width height).events = [] := by
  rcases os with ⟨a, b, c, d, e, f, g, h, bits⟩
  cases hc : CreateImage (image.Rect 0 0 width height) with
  | error err =>
    simp only [Capture, hc]
    decide
  | ok img =>
    cases a
    · simp only [Capture, hc, fail, if_true, if_false, eq_self_iff_true, Bool.true_eq_false]
      decide
    cases b
    · simp only [Capture, hc, fail, if_true, if_false, eq_self_iff_true, Bool.true_eq_false]
      decide
    cases c
    · simp only [Capture, hc, fail, if_true, if_false, eq_self_iff_true, Bool.true_eq_false]
      decide
    cases f
    · cases d <;> cases e <;>
        simp only [Capture, hc, fail, if_true, if_false, eq_self_iff_true, Bool.true_eq_false] <;>
        decide
    cases g
    · cases d <;> cases e <;>
        simp only [Capture, hc, fail, if_true, if_false, eq_self_iff_true, Bool.true_eq_false] <;>
        decide
    cases h
    · cases d <;> cases e <;>
        simp only [Capture, hc, fail, if_true, if_false, eq_self_iff_true, Bool.true_eq_false] <;>
        decide
    cases d <;> cases e <;>
      simp only [Capture, hc, fail, if_true, if_false, eq_self_iff_true, Bool.true_eq_false] <;>
      split <;> dsimp only <;> decide

/-- C9 fails, for a negative and for a zero width alike: `Capture` has no test
of width or height, and the allocator is handed `image.Rect(0, 0, width, height)`.
For width -5 and height 3 that is the well-formed rectangle from (-5, 0) to
(0, 3), and `Capture` returns its 5 × 3 image with no pixel written and no
error; for width 0 and height 5 it returns the empty image and no error. -/
theorem C9_nonpositive_extent_not_rejected :
    (Capture (util.CreateImage true) (OS.allOk sampleBits) 0 0 (-5) 3).result =
      .returned (some (image.NewRGBA ⟨⟨-5, 0⟩, ⟨0, 3⟩⟩)) none ∧
    (Capture (util.CreateImage true) (OS.allOk sampleBits) 0 0 0 5).result =
      .returned (some ⟨[], 0, ⟨⟨0, 0⟩, ⟨0, 5⟩⟩⟩) none := by
  decide

/-- C9, amended: for width ≤ 0 or height ≤ 0, `Capture` fails at the allocation
of the buffer only when the allocator reports an error for
`image.Rect(0, 0, width, height)`; it then returns that error and the nil image
before any OS call.  When the allocator delivers an image, `Capture` goes on to
`GetDC`, the conversion loop stores nothing, and with the six tested OS calls
succeeding the image is returned as delivered, with a nil error.  For the
allocator `util.CreateImage` the failure at the allocation step occurs exactly
when the allocation itself fails. -/
theorem C9_nonpositive_extent_follows_allocator
    (CreateImage : image.Rectangle → Except String image.RGBA) (os : OS)
    (x y width height : Int) (h0 : width ≤ 0 ∨ height ≤ 0) :
    (∀ err, CreateImage (image.Rect 0 0 width height) = .error err →
      (Capture CreateImage os x y width height).result = .returned none (some err) ∧
      (Capture CreateImage os x y width height).events = []) ∧
    (∀ img, CreateImage (image.Rect 0 0 width height) = .ok img →
      (Capture CreateImage os x y width height).events.head? = some (Event.GetDC os.GetDC) ∧
      (os.GetDC = true → os.CreateCompatibleDC = true → os.CreateCompatibleBitmap = true →
        os.SelectObject = true → os.BitBlt = true → os.GetDIBits = true →
        (Capture CreateImage os x y width height).result = .returned (some img) none ∧
        (Capture CreateImage os x y width height).writes = [])) ∧
    (∀ allocOk : Bool,
      (Capture (util.CreateImage allocOk) os x y width height).events = [] ↔
        allocOk = false) := by
  have part2 : ∀ (A : image.Rectangle → Except String image.RGBA) (img : image.RGBA),
      A (image.Rect 0 0 width height) = .ok img →
      (Capture A os x y width height).events.head? = some (Event.GetDC os.GetDC) ∧
      (os.GetDC = true → os.CreateCompatibleDC = true → os.CreateCompatibleBitmap = true →
        os.SelectObject = true → os.BitBlt = true → os.GetDIBits = true →
        (Capture A os x y width height).result = .returned (some img) none ∧
        (Capture A os x y width height).writes = []) := by
    intro A img hc
    have hcv := fun m => convert_of_nonpos m width height img.Pix h0
    constructor
    · rcases os with ⟨a, b, c, d, e, f, g, h, bits⟩
      cases a <;> cases b <;> cases c <;> cases f <;> cases g <;> cases h <;>
        simp [Capture, hc, fail, hcv]
    · intro h1 h2 h3 h4 h5 h6
      simp [Capture, hc, fail, hcv, h1, h2, h3, h4, h5, h6]
  refine ⟨?_, part2 CreateImage, ?_⟩
  · intro err hc
    simp [Capture, hc]
  · intro allocOk
    cases allocOk with
    | false =>
      have hc : util.CreateImage false (image.Rect 0 0 width height) =
          .error "Cannot create image.RGBA" := rfl
      simp [Capture, hc]
    | true =>
      have hc : util.CreateImage true (image.Rect 0 0 width height) =
          .ok (image.NewRGBA (image.Rect 0 0 width height)) := rfl
      have hhead := (part2 (util.CreateImage true) _ hc).1
      constructor
      · intro hnil
        rw [hnil] at hhead
        cases hhead
      · intro hne
        cases hne

/-- C9 amended, for a capture 0 wide and 5 high: the allocator delivers the
empty image and `Capture` returns it with a nil error. -/
theorem C9_nonpositive_extent_follows_allocator_witness :
    (Capture (util.CreateImage true) (OS.allOk sampleBits) 0 0 0 5).result =
      .returned (some (image.NewRGBA (image.Rect 0 0 0 5))) none ∧
    (Capture (util.CreateImage true) (OS.allOk sampleBits) 0 0 0 5).writes = [] :=
  ((C9_nonpositive_extent_follows_allocator (util.CreateImage true) (OS.allOk sampleBits)
    0 0 0 5 (Or.inl (by decide))).2.1 (image.NewRGBA (image.Rect 0 0 0 5)) rfl).2
    rfl rfl rfl rfl rfl rfl

/-- C10: for width > 0 and height > 0 within the int64 range, the transfer
block has `((width*32+31)/32)*4*height` bytes (truncating division), which is
`4*width*height`; every offset `4p`, `4p+1`, `4p+2` with `p < width*height` is
below that size; and over a block of that size and a pixel slice of at least
that many bytes the conversion loop runs to its end having read exactly those
offsets, each below the block size. -/
theorem C10_transfer_block_covers_reads (width height : Int) (hw : 0 < width)
    (hh : 0 < height) (hrow : width * 32 + 31 < 2 ^ 63) (hsize : 4 * width * height < 2 ^ 63) :
    (bitmapDataSize width height : Int) = Int.tdiv (width * 32 + 31) 32 * 4 * height ∧
    (bitmapDataSize width height : Int) = 4 * width * height ∧
    (∀ p : Nat, (p : Int) < width * height →
      4 * p < bitmapDataSize width height ∧ 4 * p + 1 < bitmapDataSize width height ∧
      4 * p + 2 < bitmapDataSize width height) ∧
    (∀ (bits : Nat → Byte) (pix : List Byte), 4 * width * height ≤ pix.length →
      ∃ s, convert (some ⟨bitmapDataSize width height, bits⟩) width height pix = .ok s ∧
        s.reads = (List.range (width.toNat * height.toNat)).flatMap
          (fun p => [4 * p, 4 * p + 1, 4 * p + 2]) ∧
        ∀ off ∈ s.reads, off < bitmapDataSize width height) := by
  obtain ⟨f1, f2⟩ := bitmapDataSize_eq hw hh hrow hsize
  have hn := toNat_mul_toNat hw hh
  have hsz := bitmapDataSize_eq_nat hw hh hrow hsize
  refine ⟨f1, f2, ?_, ?_⟩
  · intro p hp
    have : p < width.toNat * height.toNat := by omega
    omega
  · intro bits pix hpix
    have hpix1 : 4 * (width.toNat * height.toNat) ≤ pix.length := by
      have : ((4 * (width.toNat * height.toNat) : Nat) : Int) ≤ pix.length := by
        push_cast at hn ⊢
        rw [mul_assoc] at hpix
        rw [hn]
        exact hpix
      exact_mod_cast this
    obtain ⟨t, ht⟩ := rowLoop_of_bounds ⟨bitmapDataSize width height, bits⟩
      (width.toNat * height.toNat)
      { i := 0, src := 0, Pix := pix, reads := [], writes := [] }
      (by simp only; omega) (by simp only; omega)
    have c := rowLoop_eq_ok _ _ _ _ ht
    have hreads : t.reads = (List.range (width.toNat * height.toNat)).flatMap
        (fun p => [4 * p, 4 * p + 1, 4 * p + 2]) := by
      rw [c.reads_eq]
      simp
    refine ⟨t, ?_, hreads, ?_⟩
    · unfold convert
      rw [imageLoop_eq_rowLoop]
      exact ht
    · intro off hoff
      rw [hreads] at hoff
      simp only [List.mem_flatMap, List.mem_range, List.mem_cons, List.mem_singleton,
        List.not_mem_nil, or_false] at hoff
      obtain ⟨p, hp, hcase⟩ := hoff
      rcases hcase with h | h | h <;> omega

/-- C10, on a 3 × 2 capture: 24 bytes, and the last offset read is 22. -/
theorem C10_transfer_block_covers_reads_witness :
    (bitmapDataSize 3 2 : Int) = 4 * 3 * 2 ∧ 4 * 5 + 2 < bitmapDataSize 3 2 :=
  ⟨(C10_transfer_block_covers_reads 3 2 (by decide) (by decide) (by decide) (by decide)).2.1,
   ((C10_transfer_block_covers_reads 3 2 (by decide) (by decide) (by decide)
      (by decide)).2.2.1 5 (by decide)).2.2⟩
